import Mathlib

/-!
Verification development for the RSS news streaming pipeline
(`src/simplified_feed_fetch.py`).

The script pulls a fixed set of RSS feeds, canonicalizes every entry into a
flat record, deduplicates by a SHA-1 digest of the article URL, merges the
fresh records against a previously persisted parquet corpus and writes the
merged table back.  This file gives a shallow embedding of the pipeline:

* `sha1Hex` / `deriveArticleId` — the `hashlib.sha1(url.encode()).hexdigest()`
  identity key (full SHA-1 over UTF-8 bytes, machine words as `Nat % 2^32`);
* `urlHostname` / `site_name` — the `urllib.parse.urlparse(url).hostname`
  based publisher label, including the `Invalid IPv6 URL` failure path;
* `canonical_row` — the per-entry canonicalization, with Python attribute
  errors modelled as `Except.error` and the external collaborators
  (`pd.to_datetime`, timezone rendering, `bs4` markup stripping) passed in
  as explicit functions (`Collab`);
* `canonLoop` / `canonStage` — the canonicalization stage with its within-run
  dedup set and its `except` handler that prints the failing entry's link;
* `mergeRun` — the sort / cross-run-filter / concat / count stage;
* `persistOps` — the file operations performed by the write-back step.
-/

set_option maxRecDepth 1000000

deriving instance DecidableEq for Except

namespace FeedFetch

/-! ### SHA-1 (`hashlib.sha1`), over byte lists, words as `Nat` mod `2 ^ 32` -/

/-- Rotate the low 32 bits of `w` left by `n` (for `w < 2 ^ 32`). -/
def rotl32 (n w : Nat) : Nat :=
  ((w <<< n) % 2 ^ 32) ||| (w >>> (32 - n))

/-- UTF-8 encoding of one character, as a list of byte values
(Python's `str.encode()` with no arguments is UTF-8). -/
def utf8Encode (c : Char) : List Nat :=
  let n := c.toNat
  if n < 0x80 then [n]
  else if n < 0x800 then [0xC0 + n / 64, 0x80 + n % 64]
  else if n < 0x10000 then [0xE0 + n / 4096, 0x80 + n / 64 % 64, 0x80 + n % 64]
  else [0xF0 + n / 262144, 0x80 + n / 4096 % 64, 0x80 + n / 64 % 64, 0x80 + n % 64]

/-- UTF-8 bytes of a string. -/
def utf8Bytes (s : String) : List Nat :=
  s.data.flatMap utf8Encode

/-- Big-endian 8-byte rendering of the 64-bit message length. -/
def be64 (n : Nat) : List Nat :=
  (List.range 8).map (fun i => n / 2 ^ (8 * (7 - i)) % 256)

/-- SHA-1 padding: append `0x80`, zero bytes up to 56 mod 64, then the
bit length, big-endian. -/
def sha1Pad (msg : List Nat) : List Nat :=
  msg ++ [0x80] ++ List.replicate ((119 - msg.length % 64) % 64) 0
      ++ be64 (8 * msg.length)

/-- Four big-endian bytes to one 32-bit word. -/
def bytesToWord (a b c d : Nat) : Nat :=
  a % 256 * 2 ^ 24 + b % 256 * 2 ^ 16 + c % 256 * 2 ^ 8 + d % 256

/-- Group a byte list into big-endian 32-bit words. -/
def toWords : List Nat → List Nat
  | a :: b :: c :: d :: rest => bytesToWord a b c d :: toWords rest
  | _ => []

/-- Group a word list into 16-word chunks (the padded message is always a
whole number of chunks). -/
def chunks16 : List Nat → List (List Nat)
  | w0 :: w1 :: w2 :: w3 :: w4 :: w5 :: w6 :: w7 ::
    w8 :: w9 :: w10 :: w11 :: w12 :: w13 :: w14 :: w15 :: rest =>
      [w0, w1, w2, w3, w4, w5, w6, w7, w8, w9, w10, w11, w12, w13, w14, w15]
        :: chunks16 rest
  | _ => []

/-- Message-schedule extension, on the reversed word list: prepend
`rotl1 (w15 xor w13 xor w7 xor w2)` (indices from the end) `k` times. -/
def extendRev (rws : List Nat) : Nat → List Nat
  | 0 => rws
  | k + 1 =>
      extendRev
        (rotl32 1 (rws.getD 2 0 ^^^ rws.getD 7 0 ^^^ rws.getD 13 0 ^^^ rws.getD 15 0)
          :: rws) k

/-- Extend 16 chunk words to the 80-word schedule. -/
def schedule (chunk : List Nat) : List Nat :=
  (extendRev chunk.reverse 64).reverse

/-- The SHA-1 round function, by round index. -/
def sha1F (t b c d : Nat) : Nat :=
  if t < 20 then (b &&& c) ||| ((b ^^^ (2 ^ 32 - 1)) &&& d)
  else if t < 40 then b ^^^ c ^^^ d
  else if t < 60 then (b &&& c) ||| (b &&& d) ||| (c &&& d)
  else b ^^^ c ^^^ d

/-- The SHA-1 round constant, by round index. -/
def sha1K (t : Nat) : Nat :=
  if t < 20 then 0x5A827999
  else if t < 40 then 0x6ED9EBA1
  else if t < 60 then 0x8F1BBCDC
  else 0xCA62C1D6

/-- One SHA-1 round: state is the round counter with the five chaining
words. -/
def roundStep (st : Nat × Nat × Nat × Nat × Nat × Nat) (wi : Nat) :
    Nat × Nat × Nat × Nat × Nat × Nat :=
  match st with
  | (t, a, b, c, d, e) =>
      (t + 1, (rotl32 5 a + sha1F t b c d + e + sha1K t + wi) % 2 ^ 32,
       a, rotl32 30 b, c, d)

/-- Process one 16-word chunk against the running hash state. -/
def processChunk (h : Nat × Nat × Nat × Nat × Nat) (chunk : List Nat) :
    Nat × Nat × Nat × Nat × Nat :=
  match h with
  | (h0, h1, h2, h3, h4) =>
      match (schedule chunk).foldl roundStep (0, h0, h1, h2, h3, h4) with
      | (_, a, b, c, d, e) =>
          ((h0 + a) % 2 ^ 32, (h1 + b) % 2 ^ 32, (h2 + c) % 2 ^ 32,
           (h3 + d) % 2 ^ 32, (h4 + e) % 2 ^ 32)

/-- The five 32-bit words of the SHA-1 digest of a byte list. -/
def sha1Digest (msg : List Nat) : List Nat :=
  match (chunks16 (toWords (sha1Pad msg))).foldl processChunk
      (0x67452301, 0xEFCDAB89, 0x98BADCFE, 0x10325476, 0xC3D2E1F0) with
  | (h0, h1, h2, h3, h4) => [h0, h1, h2, h3, h4]

/-- The sixteen lowercase hexadecimal digit characters. -/
def hexChars : List Char := "0123456789abcdef".data

/-- Hexadecimal digit character for a nibble value. -/
def hexDigitCh (n : Nat) : Char := hexChars.getD n 'x'

/-- Fixed-width (8 characters) lowercase hex rendering of a 32-bit word. -/
def wordToHex (w : Nat) : List Char :=
  (List.range 8).map (fun i => hexDigitCh (w / 16 ^ (7 - i) % 16))

/-- Lowercase hex digest string of a byte list (`hexdigest()`). -/
def sha1Hex (msg : List Nat) : String :=
  String.mk ((sha1Digest msg).flatMap wordToHex)

/-- The article identity key:
`hashlib.sha1(url.encode()).hexdigest()` (line 27 of the source). -/
def deriveArticleId (url : String) : String :=
  sha1Hex (utf8Bytes url)

/-! ### `urllib.parse.urlparse(url).hostname` and `site_name`

Model of CPython's `urlsplit` hostname extraction (3.11 semantics): tab, CR
and LF are removed, a syntactically valid scheme is stripped, the netloc is
the run after `//` up to `/`, `?` or `#`, unbalanced square brackets raise
`ValueError: Invalid IPv6 URL`, the hostname is the netloc after the last
`@`, bracket-delimited if a bracket is present and otherwise cut at the
first `:`, lowercased, and `None` when empty. -/

/-- The characters CPython accepts inside a URL scheme. -/
def schemeChars : List Char :=
  "abcdefghijklmnopqrstuvwxyzABCDEFGHIJKLMNOPQRSTUVWXYZ0123456789+-.".data

/-- Remove the unsafe bytes `\t`, `\r`, `\n` everywhere in the URL. -/
def removeUnsafe (l : List Char) : List Char :=
  l.filter (fun c => !(c == '\t' || c == '\r' || c == '\n'))

/-- Strip a leading `scheme:` when the part before the first `:` is a
non-empty run of scheme characters starting with an ASCII letter. -/
def stripScheme (url : List Char) : List Char :=
  match url.findIdx? (fun c => c == ':') with
  | some i =>
      if 0 < i ∧ (url.getD 0 ' ').isAlpha ∧ (url.take i).all (fun c => schemeChars.contains c)
      then url.drop (i + 1) else url
  | none => url

/-- The netloc: present when the (scheme-stripped) URL starts with `//`, and
then runs up to the first `/`, `?` or `#`. -/
def splitNetloc (rest : List Char) : Option (List Char) :=
  if rest.take 2 = ['/', '/'] then
    some ((rest.drop 2).takeWhile (fun c => !(c == '/' || c == '?' || c == '#')))
  else none

/-- The suffix after the last occurrence of `c` (the whole list when `c` is
absent) — `str.rpartition`'s third component. -/
def afterLast (c : Char) (l : List Char) : List Char :=
  (l.reverse.takeWhile (fun x => !(x == c))).reverse

/-- The suffix after the first occurrence of `c` — `str.partition`'s third
component. -/
def afterFirst (c : Char) (l : List Char) : List Char :=
  (l.dropWhile (fun x => !(x == c))).drop 1

/-- ASCII lowercasing of one character (`str.lower` on hostname text). -/
def toLowerCh (c : Char) : Char :=
  if 65 ≤ c.toNat ∧ c.toNat ≤ 90 then Char.ofNat (c.toNat + 32) else c

/-- ASCII uppercasing of one character (`str.upper` on the label). -/
def toUpperCh (c : Char) : Char :=
  if 97 ≤ c.toNat ∧ c.toNat ≤ 122 then Char.ofNat (c.toNat - 32) else c

/-- Whether `pre` is a leading run of `s` (`str.startswith`). -/
def startsWithL : List Char → List Char → Bool
  | _, [] => true
  | [], _ :: _ => false
  | a :: as, b :: bs => a.toNat == b.toNat && startsWithL as bs

/-- `str.split(".")`: split on every dot; the empty string gives `[""]`. -/
def splitOnDot : List Char → List (List Char)
  | [] => [[]]
  | c :: cs =>
      if c.toNat == 46 then [] :: splitOnDot cs
      else
        match splitOnDot cs with
        | [] => [[c]]
        | p :: ps => (c :: p) :: ps

/-- The host part of a netloc (`_hostinfo`): drop the userinfo up to the
last `@`, then take the bracket-delimited run when a `[` is present,
otherwise everything before the first `:`. -/
def hostOf (netloc : List Char) : List Char :=
  if (afterLast '@' netloc).contains '[' then
    (afterFirst '[' (afterLast '@' netloc)).takeWhile (fun c => !(c == ']'))
  else (afterLast '@' netloc).takeWhile (fun c => !(c == ':'))

/-- `urlparse(url).hostname`: `Except.error` models the `ValueError` CPython
raises on unbalanced square brackets, `none` models hostname `None`. -/
def urlHostname (url : String) : Except String (Option String) :=
  match splitNetloc (stripScheme (removeUnsafe url.data)) with
  | none => Except.ok none
  | some netloc =>
      if netloc.contains '[' != netloc.contains ']' then
        Except.error "Invalid IPv6 URL"
      else
        if (hostOf netloc).isEmpty then Except.ok none
        else Except.ok (some (String.mk ((hostOf netloc).map toLowerCh)))

/-- The label computed from the www-stripped host: the upper-cased
second-from-last dot label when the host has a dot, the upper-cased whole
host otherwise. -/
def labelOfHost (host : List Char) : String :=
  if host.contains '.' then
    String.mk (((splitOnDot host).getD ((splitOnDot host).length - 2) []).map toUpperCh)
  else String.mk (host.map toUpperCh)

/-- The hostname lowercased (empty when absent) with a leading `www.`
dropped. -/
def wwwStrippedHost (h : Option String) : List Char :=
  if startsWithL ((h.getD "").data.map toLowerCh) "www.".data
  then ((h.getD "").data.map toLowerCh).drop 4
  else (h.getD "").data.map toLowerCh

/-- `site_name` (source lines 12–17): publisher label from a URL.  The
hostname (empty when absent) is lowercased, a leading `www.` is dropped,
and the second-from-last dot label (or the whole host when it has no dot)
is upper-cased.  The `Except` propagates `urlparse`'s `ValueError`. -/
def site_name (url : String) : Except String String :=
  match urlHostname url with
  | Except.error msg => Except.error msg
  | Except.ok h => Except.ok (labelOfHost (wwwStrippedHost h))

/-- Whether the square brackets of the URL's netloc are balanced — the
condition under which `urlsplit` does not raise `Invalid IPv6 URL`
(vacuously true when the URL has no netloc). -/
def netlocBracketBalanced (url : String) : Bool :=
  match splitNetloc (stripScheme (removeUnsafe url.data)) with
  | none => true
  | some nl => nl.contains '[' == nl.contains ']'

/-- Whether a character is a lowercase hexadecimal digit. -/
def isHexCh (c : Char) : Bool := hexChars.contains c

/-! ### Canonical article records and per-entry canonicalization -/

/-- The canonical article record (the row schema of lines 29–41). -/
structure Record where
  article_id : String
  timestamp : String
  title : String
  summary : String
  tags : String
  authors : String
  url : String
  source : String
deriving DecidableEq, Repr

/-- A raw feed entry as `feedparser` hands it over.  A `none` field models
an absent attribute or key: `feedparser` raises `AttributeError` on
attribute access to a missing field, `t["term"]` raises `KeyError`, while
`entry.get("tags", [])` and `a.get("name", "")` default silently. -/
structure RawEntry where
  link : Option String
  title : Option String
  summary : Option String
  published : Option String
  tags : Option (List (Option String))
  authors : Option (List (Option String))
deriving DecidableEq, Repr

/-- The external collaborators canonicalization uses, passed explicitly:
`parseDate` is `pd.to_datetime(·, utc=True, errors="coerce")`, where `none`
is the `NaT` sentinel (with `errors="coerce"` the call is total);
`isoLocal` is `tz_convert(NY_TZ)` followed by `isoformat(timespec="seconds")`
on an actual instant (`NaT.tz_convert` gives `NaT` again and
`NaT.isoformat(...)` is the string `"NaT"`, handled separately);
`stripHtml` is `BeautifulSoup(·, "html.parser").get_text(" ", strip=True)`. -/
structure Collab (α : Type) where
  parseDate : String → Option α
  isoLocal : α → String
  stripHtml : String → String

/-- Python attribute access on an optional field: `AttributeError` when the
field is absent. -/
def getattr (name : String) : Option β → Except String β
  | some v => Except.ok v
  | none => Except.error ("AttributeError: " ++ name)

/-- Whether a character counts as strippable whitespace (`str.strip`). -/
def isSpaceCh (c : Char) : Bool :=
  c.toNat == 32 || (9 ≤ c.toNat ∧ c.toNat ≤ 13)

/-- `str.strip()`: drop leading and trailing whitespace. -/
def trimL (l : List Char) : List Char :=
  ((l.dropWhile isSpaceCh).reverse.dropWhile isSpaceCh).reverse

/-- `", ".join(...)` on character lists. -/
def joinCommaL : List (List Char) → List Char
  | [] => []
  | [x] => x
  | x :: y :: rest => x ++ ", ".data ++ joinCommaL (y :: rest)

/-- `", ".join(...)` on strings. -/
def joinComma (xs : List String) : String :=
  String.mk (joinCommaL (xs.map (fun s => s.data)))

/-- `str.strip()` on strings. -/
def trimS (s : String) : String := String.mk (trimL s.data)

/-- The tag terms `t["term"]`: `KeyError` as soon as one tag has no term. -/
def tagTerms : List (Option String) → Except String (List String)
  | [] => Except.ok []
  | some t :: ts => (tagTerms ts).map (fun l => t :: l)
  | none :: _ => Except.error "KeyError: term"

/-- `canonical_row` (source lines 21–41), with Python's evaluation order:
`feed_entry.published` is read first, the parsed instant (or `NaT`) is
rendered, then `feed_entry.link`, the SHA-1 id, `feed_entry.title`,
`feed_entry.summary`, the tag terms, the authors and `site_name(url)`.
Any raised `AttributeError` / `KeyError` / `ValueError` becomes
`Except.error`. -/
def canonical_row (c : Collab α) (e : RawEntry) : Except String Record :=
  match getattr "published" e.published with
  | Except.error msg => Except.error msg
  | Except.ok published =>
      match getattr "link" e.link with
      | Except.error msg => Except.error msg
      | Except.ok url =>
          match getattr "title" e.title with
          | Except.error msg => Except.error msg
          | Except.ok title =>
              match getattr "summary" e.summary with
              | Except.error msg => Except.error msg
              | Except.ok summary =>
                  match tagTerms (e.tags.getD []) with
                  | Except.error msg => Except.error msg
                  | Except.ok terms =>
                      match site_name url with
                      | Except.error msg => Except.error msg
                      | Except.ok src =>
                          Except.ok
                            { article_id := deriveArticleId url,
                              timestamp :=
                                match c.parseDate published with
                                | some t => c.isoLocal t
                                | none => "NaT",
                              title := trimS title,
                              summary := c.stripHtml summary,
                              tags := joinComma terms,
                              authors := joinComma
                                ((e.authors.getD []).map (fun a => trimS (a.getD ""))),
                              url := url, source := src }

/-! ### The canonicalization stage (source lines 66–76)

The futures loop is modelled sequentially in completion order: each entry's
`canonical_row` result is collected; a successful row is appended unless its
`article_id` is already in the within-run dedup set; a failed entry is
logged via `print(f"skipped {futures[fut].link}: {exc}")` — a line that
itself reads the entry's `link` attribute and therefore raises
`AttributeError` (aborting the whole loop) when the link is absent. -/

/-- State of the canonicalization loop: collected rows, the `seen_this_run`
dedup set (as a list), and the skip log lines. -/
structure CanonState where
  rows : List Record
  seen : List String
  logs : List String
deriving DecidableEq, Repr

/-- One iteration of the collection loop for one entry. -/
def canonStep (c : Collab α) (st : CanonState) (e : RawEntry) :
    Except String CanonState :=
  match canonical_row c e with
  | Except.ok row =>
      if st.seen.contains row.article_id then Except.ok st
      else Except.ok { rows := st.rows ++ [row],
                       seen := st.seen ++ [row.article_id],
                       logs := st.logs }
  | Except.error msg =>
      match e.link with
      | some l => Except.ok { st with logs := st.logs ++ ["skipped " ++ l ++ ": " ++ msg] }
      | none => Except.error "AttributeError: link"

/-- The collection loop over all entries. -/
def canonLoop (c : Collab α) : List RawEntry → CanonState → Except String CanonState
  | [], st => Except.ok st
  | e :: es, st =>
      match canonStep c st e with
      | Except.ok st' => canonLoop c es st'
      | Except.error m => Except.error m

/-- The whole canonicalization stage: rows and skip logs (or the uncaught
exception that aborted the batch). -/
def canonStage (c : Collab α) (entries : List RawEntry) :
    Except String (List Record × List String) :=
  (canonLoop c entries ⟨[], [], []⟩).map (fun st => (st.rows, st.logs))

/-! ### Merge / dedup / persist (source lines 78–104) -/

/-- Strict lexicographic order on character lists by code point — the
string comparison underlying the pandas `sort_values` on the `timestamp`
column. -/
def lexLt : List Char → List Char → Bool
  | [], [] => false
  | [], _ :: _ => true
  | _ :: _, [] => false
  | a :: as, b :: bs =>
      decide (a.toNat < b.toNat) || (decide (a.toNat = b.toNat) && lexLt as bs)

/-- Descending-timestamp comparison used by
`sort_values("timestamp", ascending=False)`: `a` may come before `b` when
`a.timestamp` is not lexicographically below `b.timestamp`. -/
def tsDesc (a b : Record) : Prop :=
  lexLt a.timestamp.data b.timestamp.data = false

instance : DecidableRel tsDesc := fun a b =>
  inferInstanceAs (Decidable (lexLt a.timestamp.data b.timestamp.data = false))

/-- `fresh_df`: the canonicalized rows sorted by timestamp, newest first. -/
def sortDescByTimestamp (rows : List Record) : List Record :=
  List.insertionSort tsDesc rows

/-- The merge stage (lines 78–95): sort the fresh rows; when a prior corpus
exists, drop fresh rows whose `article_id` is already present and append
the remainder after the old rows; the second component is `len(fresh_df)`
after the filter — the count the script reports as newly added. -/
def mergeRun (old : Option (List Record)) (rowsIn : List Record) :
    List Record × Nat :=
  let fresh := sortDescByTimestamp rowsIn
  match old with
  | none => (fresh, fresh.length)
  | some o =>
      let beforeIds := o.map (fun r => r.article_id)
      let keptFresh := fresh.filter (fun r => !(beforeIds.contains r.article_id))
      (o ++ keptFresh, keptFresh.length)

/-- Sortedness by `timestamp`, newest first. -/
def sortedByTimestampDesc (rows : List Record) : Prop :=
  List.Sorted tsDesc rows

instance (rows : List Record) : Decidable (sortedByTimestampDesc rows) :=
  List.instDecidablePairwise rows

/-- File operations the script can perform against the corpus path. -/
inductive FileOp
  | readParquet (path : String)
  | writeParquet (path : String)
  | rename (src dst : String)
deriving DecidableEq, Repr

/-- The write-back step (lines 94–95): a single direct
`combined.to_parquet(OUT, ...)` call on the target path. -/
def persistOps : List FileOp := [FileOp.writeParquet "news.parquet"]

/-- Modelled from the spec: "replacing any previous file atomically
(write-then-rename, or equivalent...)" — the persist step writes a distinct
temporary path and then renames it onto the target. -/
def atomicReplace (ops : List FileOp) (target : String) : Prop :=
  ∃ tmp, tmp ≠ target ∧ ops = [FileOp.writeParquet tmp, FileOp.rename tmp target]

/-- The divisor of the per-article average time
(`elapsed / max(len(rows), 1)`, line 104). -/
def statDivisor (rows : List Record) : Nat := max rows.length 1

/-- The per-article average time statistic itself, over rational elapsed
time. -/
def perArticleAvg (elapsed : ℚ) (rows : List Record) : ℚ :=
  elapsed / (statDivisor rows : ℚ)

/-! ### Concrete fixtures used by witnesses and counterexamples -/

/-- Concrete collaborators for witness runs: every date is unparseable
(`NaT`), markup stripping is the identity. -/
def cW : Collab Nat :=
  { parseDate := fun _ => none, isoLocal := fun n => toString n,
    stripHtml := fun s => s }

/-- A well-formed entry. -/
def eG1 : RawEntry :=
  ⟨some "u1", some "t1", some "s1", some "2024-01-02", none, none⟩

/-- A second well-formed entry with a different link. -/
def eG2 : RawEntry :=
  ⟨some "u2", some "t2", some "s2", some "2024-01-01", none, none⟩

/-- An entry with the same link as `eG1` but different content. -/
def eDup : RawEntry :=
  ⟨some "u1", some "other", some "s", some "2024-01-03", none, none⟩

/-- A malformed entry: its `title` attribute is absent. -/
def eNoTitle : RawEntry :=
  ⟨some "u3", none, some "s", some "2024", none, none⟩

/-- A malformed entry: its `link` attribute is absent. -/
def eNoLink : RawEntry :=
  ⟨none, some "t", some "s", some "2024", none, none⟩

/-- A record of an already-persisted corpus, with an early timestamp. -/
def rA : Record :=
  ⟨"aid-old", "2024-01-01T00:00:00-05:00", "t", "s", "", "", "uA", "SRC"⟩

/-- A fresh record with a later timestamp and a new id. -/
def rB : Record :=
  ⟨"aid-new", "2024-06-01T00:00:00-04:00", "t", "s", "", "", "uB", "SRC"⟩

/-- The canonical record `canonical_row cW eG1` produces (`deriveArticleId
"u1"` is the 40-character SHA-1 digest of `"u1"`). -/
def rW1 : Record :=
  ⟨"c5ea71554c774daf7fab320fc3476afc0617eb00", "NaT", "t1", "s1", "", "",
   "u1", ""⟩

/-! ### Helper lemmas -/

theorem lexLt_asymm : ∀ x y : List Char, lexLt x y = true → lexLt y x = false
  | [], [], h => by simp [lexLt] at h
  | [], _ :: _, _ => rfl
  | _ :: _, [], h => by simp [lexLt] at h
  | a :: as, b :: bs, h => by
      simp only [lexLt, Bool.or_eq_true, Bool.and_eq_true, decide_eq_true_eq] at h
      simp only [lexLt, Bool.or_eq_false_iff, Bool.and_eq_false_iff,
        decide_eq_false_iff_not]
      rcases h with h | ⟨he, hlt⟩
      · exact ⟨by omega, Or.inl (by omega)⟩
      · exact ⟨by omega, Or.inr (lexLt_asymm as bs hlt)⟩

theorem lexLt_total (x y : List Char) : lexLt x y = false ∨ lexLt y x = false := by
  cases h : lexLt x y
  · exact Or.inl rfl
  · exact Or.inr (lexLt_asymm x y h)

theorem lexLt_ge_trans : ∀ x y z : List Char,
    lexLt x y = false → lexLt y z = false → lexLt x z = false
  | x, _, [] => fun _ _ => by cases x <;> rfl
  | [], [], _ :: _ => fun _ h2 => h2
  | [], _ :: _, _ :: _ => fun h1 _ => by simp [lexLt] at h1
  | _ :: _, [], _ :: _ => fun _ h2 => by simp [lexLt] at h2
  | a :: as, b :: bs, c :: cs => fun h1 h2 => by
      simp only [lexLt, Bool.or_eq_false_iff, Bool.and_eq_false_iff,
        decide_eq_false_iff_not] at h1 h2 ⊢
      obtain ⟨hab, h1'⟩ := h1
      obtain ⟨hbc, h2'⟩ := h2
      refine ⟨by omega, ?_⟩
      rcases h1' with h1' | h1'
      · exact Or.inl (by omega)
      · rcases h2' with h2' | h2'
        · exact Or.inl (by omega)
        · by_cases hac : a.toNat = c.toNat
          · exact Or.inr (lexLt_ge_trans as bs cs h1' h2')
          · exact Or.inl hac

instance : IsTotal Record tsDesc :=
  ⟨fun a b => lexLt_total a.timestamp.data b.timestamp.data⟩

instance : IsTrans Record tsDesc :=
  ⟨fun _ _ _ h1 h2 => lexLt_ge_trans _ _ _ h1 h2⟩

theorem containsStr_iff {l : List String} {a : String} :
    l.contains a = true ↔ a ∈ l :=
  List.elem_iff

/-- The hostname branch of `urlHostname` when the netloc exists and its
brackets are balanced: no `ValueError` is raised. -/
theorem urlHostname_of_netloc {url : String} {nl : List Char}
    (hn : splitNetloc (stripScheme (removeUnsafe url.data)) = some nl)
    (hb : (nl.contains '[' != nl.contains ']') = false) :
    urlHostname url = (if (hostOf nl).isEmpty then Except.ok none
      else Except.ok (some (String.mk ((hostOf nl).map toLowerCh)))) := by
  unfold urlHostname
  split
  next h0 => rw [h0] at hn; exact Option.noConfusion hn
  next nl' h0 =>
    obtain rfl : nl' = nl := by rw [h0] at hn; injection hn
    rw [hb, if_neg (by simp)]

theorem getattr_ok {β : Type} {name : String} {o : Option β} {v : β}
    (h : getattr name o = Except.ok v) : o = some v := by
  cases o with
  | none => exact Except.noConfusion h
  | some x => rw [show x = v from by injection h]

/-- Shape of every record `canonical_row` successfully produces: its `url`
is the entry's link, its `article_id` is the digest of that link, and an
unparseable published date yields the `"NaT"` sentinel timestamp. -/
theorem canonical_row_ok_shape {α : Type} (c : Collab α) (e : RawEntry) (r : Record)
    (h : canonical_row c e = Except.ok r) :
    (∃ url, e.link = some url ∧ r.url = url ∧ r.article_id = deriveArticleId url) ∧
    (∀ s, e.published = some s → c.parseDate s = none → r.timestamp = "NaT") := by
  unfold canonical_row at h
  split at h
  · exact Except.noConfusion h
  next pub hpub =>
  split at h
  · exact Except.noConfusion h
  next url hurl =>
  split at h
  · exact Except.noConfusion h
  next title htitle =>
  split at h
  · exact Except.noConfusion h
  next summ hsumm =>
  split at h
  · exact Except.noConfusion h
  next terms hterms =>
  split at h
  · exact Except.noConfusion h
  next src hsrc =>
  obtain rfl : _ = r := by injection h
  refine ⟨⟨url, getattr_ok hurl, rfl, rfl⟩, ?_⟩
  intro s hps hparse
  rw [getattr_ok hpub] at hps
  obtain rfl : pub = s := by injection hps
  show (match c.parseDate pub with
        | some t => c.isoLocal t
        | none => "NaT") = "NaT"
  rw [hparse]

/-- Invariant of the canonicalization collection loop: the dedup set lists
exactly the collected article ids, those ids stay duplicate-free, the set
only grows, and every entry that canonicalizes successfully has its id in
the final set. -/
theorem canonLoop_props {α : Type} (c : Collab α) :
    ∀ (es : List RawEntry) (st st' : CanonState),
      canonLoop c es st = Except.ok st' →
      st.seen = st.rows.map (fun r => r.article_id) →
      (st.rows.map (fun r => r.article_id)).Nodup →
      (st'.seen = st'.rows.map (fun r => r.article_id) ∧
        (st'.rows.map (fun r => r.article_id)).Nodup ∧
        (∀ a ∈ st.seen, a ∈ st'.seen) ∧
        (∀ e ∈ es, ∀ row, canonical_row c e = Except.ok row →
          row.article_id ∈ st'.seen))
  | [], st, st', h, hseen, hnodup => by
      rw [canonLoop] at h
      obtain rfl : st = st' := by injection h
      exact ⟨hseen, hnodup, fun a ha => ha, fun e he => absurd he (List.not_mem_nil e)⟩
  | e :: es, st, st', h, hseen, hnodup => by
      rw [canonLoop] at h
      cases hstep : canonStep c st e with
      | error m => rw [hstep] at h; exact Except.noConfusion h
      | ok st1 =>
      rw [hstep] at h
      rw [canonStep] at hstep
      split at hstep
      next row hcr =>
        split at hstep
        next hcont =>
          obtain rfl : st = st1 := by injection hstep
          obtain ⟨i1, i2, i3, i4⟩ := canonLoop_props c es st st' h hseen hnodup
          refine ⟨i1, i2, i3, ?_⟩
          intro e' he' row' hrow'
          rcases List.mem_cons.mp he' with rfl | he'
          · obtain rfl : row = row' := by rw [hcr] at hrow'; injection hrow'
            exact i3 _ (containsStr_iff.mp hcont)
          · exact i4 e' he' row' hrow'
        next hcont =>
          obtain rfl : (⟨st.rows ++ [row], st.seen ++ [row.article_id], st.logs⟩
              : CanonState) = st1 := by injection hstep
          have hmem : row.article_id ∉ st.rows.map (fun r => r.article_id) := by
            rw [← hseen]
            intro hx
            exact hcont (containsStr_iff.mpr hx)
          obtain ⟨i1, i2, i3, i4⟩ := canonLoop_props c es _ st' h
            (by simpa using hseen)
            (by simp only [List.map_append, List.map_cons, List.map_nil]
                exact (List.nodup_append).mpr
                  ⟨hnodup, List.nodup_singleton _,
                   by intro a ha hb
                      simp only [List.mem_singleton] at hb
                      subst hb
                      exact hmem ha⟩)
          refine ⟨i1, i2, fun a ha => i3 a (List.mem_append_left _ ha), ?_⟩
          intro e' he' row' hrow'
          rcases List.mem_cons.mp he' with rfl | he'
          · obtain rfl : row = row' := by rw [hcr] at hrow'; injection hrow'
            exact i3 _ (List.mem_append_right _ (List.mem_singleton_self _))
          · exact i4 e' he' row' hrow'
      next msg hcr =>
        split at hstep
        next l hl =>
          obtain rfl : ({ st with logs := st.logs ++ ["skipped " ++ l ++ ": " ++ msg] }
              : CanonState) = st1 := by injection hstep
          obtain ⟨i1, i2, i3, i4⟩ := canonLoop_props c es _ st' h hseen hnodup
          refine ⟨i1, i2, i3, ?_⟩
          intro e' he' row' hrow'
          rcases List.mem_cons.mp he' with rfl | he'
          · rw [hcr] at hrow'; exact Except.noConfusion hrow'
          · exact i4 e' he' row' hrow'
        next hl =>
          exact Except.noConfusion hstep

theorem hexDigitCh_hex : ∀ n : Nat, n < 16 → isHexCh (hexDigitCh n) = true := by
  decide

theorem sha1Hex_all_hex (msg : List Nat) : (sha1Hex msg).data.all isHexCh = true := by
  rw [List.all_eq_true]
  intro ch hch
  have hch' : ch ∈ (sha1Digest msg).flatMap wordToHex := hch
  rw [List.mem_flatMap] at hch'
  obtain ⟨w, _, hw⟩ := hch'
  rw [wordToHex, List.mem_map] at hw
  obtain ⟨i, _, rfl⟩ := hw
  exact hexDigitCh_hex _ (Nat.mod_lt _ (by decide))

/-! ### The claims -/

/-- C10: the per-article average-time statistic divides by
`max(len(rows), 1)`, which is positive for every row list (in particular
when zero canonical rows were produced), so the stats step never divides
by zero. -/
theorem statDivisor_pos (rows : List Record) :
    0 < statDivisor rows ∧ (statDivisor rows : ℚ) ≠ 0 := by
  have h : 0 < statDivisor rows :=
    Nat.lt_of_lt_of_le Nat.zero_lt_one (Nat.le_max_right _ _)
  exact ⟨h, Nat.cast_ne_zero.mpr h.ne'⟩

/-- C10 witness: the divisor is positive on the empty row list. -/
theorem statDivisor_pos_witness :
    0 < statDivisor [] ∧ (statDivisor ([] : List Record) : ℚ) ≠ 0 :=
  statDivisor_pos []

/-- C9 counterexample: the write-back step is not an atomic
write-to-temp-then-rename replacement — it is a single direct
`to_parquet` call on the target path, so no temporary-write/rename pair
exists in its operation trace. -/
theorem persist_not_atomic : ¬ atomicReplace persistOps "news.parquet" := by
  rintro ⟨tmp, _, heq⟩
  simp [persistOps] at heq

/-- C9 amended: the persist step performs exactly one file operation: a
direct parquet write to the final path `news.parquet` (no temporary file,
no rename), so a failed write is not guaranteed to leave the prior file
intact. -/
theorem persist_single_direct_write :
    persistOps.length = 1 ∧
    persistOps.getD 0 (FileOp.rename "" "") = FileOp.writeParquet "news.parquet" :=
  ⟨rfl, rfl⟩

/-- C7 counterexample: `site_name` does throw on a malformed URL — on
`"http://["` the underlying `urlparse` raises `ValueError: Invalid IPv6
URL` (square bracket without a closing bracket in the netloc). -/
theorem site_name_throws_on_bracket :
    site_name "http://[" = Except.error "Invalid IPv6 URL" := rfl

/-- C7 amended: `site_name` maps the three specification examples to
`NYTIMES`, `DOWJONES` and `LOCALHOST` respectively, and it returns a label
(never throws) on every URL whose netloc has balanced square brackets;
only bracket-unbalanced netlocs raise. -/
theorem site_name_label (url : String) (h : netlocBracketBalanced url = true) :
    (∃ s, site_name url = Except.ok s) ∧
    site_name "https://www.nytimes.com/rss" = Except.ok "NYTIMES" ∧
    site_name "https://feeds.content.dowjones.io/x" = Except.ok "DOWJONES" ∧
    site_name "http://localhost/feed" = Except.ok "LOCALHOST" := by
  refine ⟨?_, by decide, by decide, by decide⟩
  have hok : ∃ o, urlHostname url = Except.ok o := by
    cases hn : splitNetloc (stripScheme (removeUnsafe url.data)) with
    | none =>
        refine ⟨none, ?_⟩
        simp only [urlHostname, hn]
    | some nl =>
        simp only [netlocBracketBalanced, hn] at h
        have hb : (nl.contains '[' != nl.contains ']') = false := by
          rw [bne, h, Bool.not_true]
        cases he : (hostOf nl).isEmpty with
        | true =>
            exact ⟨none, by rw [urlHostname_of_netloc hn hb, he]; exact if_pos rfl⟩
        | false =>
            exact ⟨some (String.mk ((hostOf nl).map toLowerCh)),
              by rw [urlHostname_of_netloc hn hb, he]; exact if_neg (by simp)⟩
  obtain ⟨o, ho⟩ := hok
  unfold site_name
  split
  next msg hmsg => rw [ho] at hmsg; exact Except.noConfusion hmsg
  next oo hoo => exact ⟨_, rfl⟩

/-- C7 witness: the amended claim instantiated at
`"http://localhost/feed"`, whose netloc has no brackets. -/
theorem site_name_label_witness :
    (∃ s, site_name "http://localhost/feed" = Except.ok s) ∧
    site_name "https://www.nytimes.com/rss" = Except.ok "NYTIMES" ∧
    site_name "https://feeds.content.dowjones.io/x" = Except.ok "DOWJONES" ∧
    site_name "http://localhost/feed" = Except.ok "LOCALHOST" :=
  site_name_label "http://localhost/feed" rfl

/-- C8: `deriveArticleId` is a pure deterministic function of the URL — the
same URL always yields the same id — the digest is a fixed-length
(40-character) string of lowercase hexadecimal digits, and every record
`canonical_row` produces carries `article_id = deriveArticleId url`, so two
entries with the same URL always get the same `article_id`. -/
theorem deriveArticleId_deterministic_hex {α : Type} (u : String) (c : Collab α)
    (e : RawEntry) (r : Record) (h : canonical_row c e = Except.ok r) :
    deriveArticleId u = deriveArticleId u ∧
    (deriveArticleId u).length = 40 ∧
    (deriveArticleId u).data.all isHexCh = true ∧
    r.article_id = deriveArticleId r.url := by
  refine ⟨rfl, rfl, sha1Hex_all_hex _, ?_⟩
  obtain ⟨⟨url, _, hu, ha⟩, _⟩ := canonical_row_ok_shape c e r h
  rw [hu, ha]

/-- C8 witness: the digest properties at the concrete URL `"u1"` and the
concrete record `canonical_row cW eG1` produces. -/
theorem deriveArticleId_deterministic_hex_witness :
    deriveArticleId "u1" = deriveArticleId "u1" ∧
    (deriveArticleId "u1").length = 40 ∧
    (deriveArticleId "u1").data.all isHexCh = true ∧
    rW1.article_id = deriveArticleId rW1.url :=
  deriveArticleId_deterministic_hex "u1" cW eG1 rW1 rfl

/-- C5: the claim that a malformed entry can never abort the batch is wrong
for an entry whose `link` attribute is itself absent: the skip-logging line
reads `futures[fut].link`, which raises `AttributeError` inside the
`except` handler and aborts the whole canonicalization loop — the two
well-formed entries of this batch are lost. -/
theorem canonStage_missing_link_aborts :
    canonStage cW [eG1, eNoLink, eG2] = Except.error "AttributeError: link" := rfl

/-- C6: when the `published` field is present but unparseable
(`pd.to_datetime(..., errors="coerce")` returns `NaT`), canonicalization
does not abort at the parse step: the entry either becomes a record whose
timestamp is the `"NaT"` sentinel, or fails later for another reason and
is skipped — never an uncaught crash of the run. -/
theorem canonical_row_unparseable_date {α : Type} (c : Collab α) (e : RawEntry)
    (s : String) (hpub : e.published = some s) (hparse : c.parseDate s = none) :
    (∃ r, canonical_row c e = Except.ok r ∧ r.timestamp = "NaT") ∨
    (∃ msg, canonical_row c e = Except.error msg) := by
  cases hres : canonical_row c e with
  | error msg => exact Or.inr ⟨msg, rfl⟩
  | ok r =>
      obtain ⟨_, hts⟩ := canonical_row_ok_shape c e r hres
      exact Or.inl ⟨r, rfl, hts s hpub hparse⟩

/-- C6 witness: the entry `eG1` under the collaborator `cW`, whose date
parser treats every string as unparseable. -/
theorem canonical_row_unparseable_date_witness :
    (∃ r, canonical_row cW eG1 = Except.ok r ∧ r.timestamp = "NaT") ∨
    (∃ msg, canonical_row cW eG1 = Except.error msg) :=
  canonical_row_unparseable_date cW eG1 "2024-01-02" rfl rfl

/-- C4 counterexample: the persisted corpus is not sorted by timestamp
descending after an append-run write — starting from the sorted one-record
corpus `[rA]` and appending the fresh record `rB` (new id, newer
timestamp), the written table is `[rA, rB]` with the newest record last. -/
theorem mergeRun_append_not_resorted :
    sortedByTimestampDesc [rA] ∧ rA.article_id ≠ rB.article_id ∧
    ¬ sortedByTimestampDesc (mergeRun (some [rA]) [rB]).1 := by
  refine ⟨by decide, by decide, by decide⟩

/-- C4 amended: on a first run (no prior corpus) the persisted corpus is
the fresh rows sorted by timestamp descending; on an append run the
persisted corpus is the old corpus followed by the filtered fresh rows in
that order — it is not re-sorted globally. -/
theorem mergeRun_sorted_policy (rowsIn old : List Record) :
    sortedByTimestampDesc (mergeRun none rowsIn).1 ∧
    (mergeRun (some old) rowsIn).1
      = old ++ (sortDescByTimestamp rowsIn).filter
          (fun r => !((old.map (fun x => x.article_id)).contains r.article_id)) :=
  ⟨List.sorted_insertionSort tsDesc rowsIn, rfl⟩

/-- C2: when none of the fresh records' ids occur in the existing corpus,
the merged corpus has exactly `N + M` records and the reported new-record
count (`len(fresh_df)` after the cross-run filter) is exactly `M`. -/
theorem mergeRun_disjoint_append (old rowsIn : List Record)
    (h : ∀ r ∈ rowsIn, r.article_id ∉ old.map (fun x => x.article_id)) :
    (mergeRun (some old) rowsIn).1.length = old.length + rowsIn.length ∧
    (mergeRun (some old) rowsIn).2 = rowsIn.length := by
  have hperm : List.Perm (List.insertionSort tsDesc rowsIn) rowsIn :=
    List.perm_insertionSort tsDesc rowsIn
  have hfil : (List.insertionSort tsDesc rowsIn).filter
      (fun r => !((old.map (fun x => x.article_id)).contains r.article_id))
      = List.insertionSort tsDesc rowsIn := by
    rw [List.filter_eq_self]
    intro r hr
    have hmem : r ∈ rowsIn := hperm.mem_iff.mp hr
    cases hc : (old.map (fun x => x.article_id)).contains r.article_id with
    | false => rfl
    | true => exact absurd (containsStr_iff.mp hc) (h r hmem)
  simp only [mergeRun, sortDescByTimestamp]
  rw [hfil]
  constructor
  · rw [List.length_append, hperm.length_eq]
  · exact hperm.length_eq

/-- C2 witness: appending the disjoint fresh record `rB` to the one-record
corpus `[rA]` gives two records and reports one new record. -/
theorem mergeRun_disjoint_append_witness :
    (mergeRun (some [rA]) [rB]).1.length = [rA].length + [rB].length ∧
    (mergeRun (some [rA]) [rB]).2 = [rB].length :=
  mergeRun_disjoint_append [rA] [rB] (by decide)

/-- C3: merge/persist is idempotent — when every fresh record's id is
already in the corpus, the persisted corpus is written back unchanged and
the reported new-record count is zero. -/
theorem mergeRun_idempotent (old rowsIn : List Record)
    (h : ∀ r ∈ rowsIn, r.article_id ∈ old.map (fun x => x.article_id)) :
    (mergeRun (some old) rowsIn).1 = old ∧ (mergeRun (some old) rowsIn).2 = 0 := by
  have hperm : List.Perm (List.insertionSort tsDesc rowsIn) rowsIn :=
    List.perm_insertionSort tsDesc rowsIn
  have hfil : (List.insertionSort tsDesc rowsIn).filter
      (fun r => !((old.map (fun x => x.article_id)).contains r.article_id)) = [] := by
    rw [List.filter_eq_nil_iff]
    intro r hr
    have hmem : r ∈ rowsIn := hperm.mem_iff.mp hr
    intro hb
    rw [Bool.not_eq_true'] at hb
    rw [containsStr_iff.mpr (h r hmem)] at hb
    exact Bool.noConfusion hb
  simp only [mergeRun, sortDescByTimestamp]
  rw [hfil]
  exact ⟨List.append_nil old, rfl⟩

/-- C3 witness: re-merging `[rA]` into the corpus `[rA]` leaves the corpus
unchanged and reports zero new records. -/
theorem mergeRun_idempotent_witness :
    (mergeRun (some [rA]) [rA]).1 = [rA] ∧ (mergeRun (some [rA]) [rA]).2 = 0 :=
  mergeRun_idempotent [rA] [rA] (by decide)

/-- C1: when the canonicalization stage completes, its within-run dedup
leaves the collected rows with pairwise-distinct `article_id`s; every entry
that canonicalizes successfully (in particular each of two raw entries with
identical link, whose rows share one id) is represented by exactly one
surviving row id; and merging into any prior corpus with distinct ids
yields a persisted table that again has at most one record per
`article_id`. -/
theorem pipeline_unique_article_ids {α : Type} (c : Collab α) (entries : List RawEntry)
    (old rows : List Record) (logs : List String)
    (h : canonStage c entries = Except.ok (rows, logs))
    (hold : (old.map (fun r => r.article_id)).Nodup) :
    (rows.map (fun r => r.article_id)).Nodup ∧
    (∀ e ∈ entries, ∀ row, canonical_row c e = Except.ok row →
        row.article_id ∈ rows.map (fun r => r.article_id)) ∧
    ((mergeRun (some old) rows).1.map (fun r => r.article_id)).Nodup := by
  unfold canonStage at h
  cases hloop : canonLoop c entries ⟨[], [], []⟩ with
  | error m => rw [hloop] at h; simp [Except.map] at h
  | ok stf =>
      rw [hloop] at h
      simp only [Except.map] at h
      obtain ⟨hr, hl⟩ : stf.rows = rows ∧ stf.logs = logs := by
        injection h with h'
        exact ⟨congrArg Prod.fst h', congrArg Prod.snd h'⟩
      obtain ⟨i1, i2, _, i4⟩ :=
        canonLoop_props c entries ⟨[], [], []⟩ stf hloop rfl List.nodup_nil
      subst hr
      refine ⟨i2, ?_, ?_⟩
      · intro e he row hrow
        have hm := i4 e he row hrow
        rw [i1] at hm
        exact hm
      · have hperm : List.Perm (List.insertionSort tsDesc stf.rows) stf.rows :=
          List.perm_insertionSort _ _
        have hsortNodup :
            ((List.insertionSort tsDesc stf.rows).map (fun r => r.article_id)).Nodup :=
          ((hperm.map _).nodup_iff).mpr i2
        have hkept : List.Sublist
            (((List.insertionSort tsDesc stf.rows).filter
              (fun r => !((old.map (fun x => x.article_id)).contains r.article_id))).map
                (fun r => r.article_id))
            ((List.insertionSort tsDesc stf.rows).map (fun r => r.article_id)) :=
          (List.filter_sublist _).map _
        have hkeptNodup := hsortNodup.sublist hkept
        simp only [mergeRun, sortDescByTimestamp, List.map_append]
        rw [List.nodup_append]
        refine ⟨hold, hkeptNodup, ?_⟩
        intro a ha hb
        rw [List.mem_map] at hb
        obtain ⟨r, hrmem, rfl⟩ := hb
        have hpred := (List.mem_filter.mp hrmem).2
        rw [Bool.not_eq_true'] at hpred
        rw [containsStr_iff.mpr ha] at hpred
        exact Bool.noConfusion hpred

/-- C1 witness: a batch with two identical-link entries (`eG1`, `eDup`) and
one malformed entry yields exactly the one deduplicated row `rW1`, and the
merge into the corpus `[rA]` keeps the ids duplicate-free. -/
theorem pipeline_unique_article_ids_witness :
    ([rW1].map (fun r => r.article_id)).Nodup ∧
    (∀ e ∈ [eG1, eNoTitle, eDup], ∀ row, canonical_row cW e = Except.ok row →
        row.article_id ∈ [rW1].map (fun r => r.article_id)) ∧
    ((mergeRun (some [rA]) [rW1]).1.map (fun r => r.article_id)).Nodup :=
  pipeline_unique_article_ids cW [eG1, eNoTitle, eDup] [rA] [rW1]
    ["skipped u3: AttributeError: title"] (by decide) (by decide)

end FeedFetch
